import Mathlib

set_option autoImplicit false

/-!
Shallow embedding of the weave `orm` storage layer (package orm: Bucket,
Index plumbing, and the last-modified decorator from the model-bucket
layer).  Byte strings are modelled as `List Nat`, the `weave.KVStore`
interface as a state-passing record `KV σ` (so that instrumented stores,
e.g. a read-logging store, are also instances), Go's `(T, error)` returns
as `Except String T`, and a Go method that mutates the store and returns
an error as a function `σ → σ × Option String`.
-/

namespace Weave

/-- Byte strings (Go `[]byte`) as lists of naturals. -/
abbrev Bytes := List Nat

/-- Embedding of the `weave.KVStore` interface: `get` returns the stored
bytes (or `none`) together with the next state, so that instrumented
stores (such as a store that logs every key read) are instances too. -/
structure KV (σ : Type) where
  get : σ → Bytes → Option Bytes × σ
  set : σ → Bytes → Bytes → σ
  del : σ → Bytes → σ

/-- A plain association-list key/value store. -/
abbrev Store := List (Bytes × Bytes)

/-- Lookup of a key in the association-list store. -/
def storeGet (s : Store) (k : Bytes) : Option Bytes :=
  (s.find? (fun p => p.1 == k)).map (fun p => p.2)

/-- Setting a key replaces any previous binding. -/
def storeSet (s : Store) (k v : Bytes) : Store :=
  (k, v) :: s.filter (fun p => !(p.1 == k))

/-- Deleting a key removes every binding for it. -/
def storeDelete (s : Store) (k : Bytes) : Store :=
  s.filter (fun p => !(p.1 == k))

/-- The pure association-list instance of the store interface. -/
def listKV : KV Store :=
  { get := fun s k => (storeGet s k, s)
    set := storeSet
    del := storeDelete }

/-- A read-logging instance of the store interface: the second component
of the state records, in order, every key that was read. -/
def logKV : KV (Store × List Bytes) :=
  { get := fun s k => (storeGet s.1 k, (s.1, s.2 ++ [k]))
    set := fun s k v => (storeSet s.1 k v, s.2)
    del := fun s k => (storeDelete s.1 k, s.2) }

/-- Embedding of a domain `Value` (interface `CloneableData`): the payload
together with the results of its `Validate` and `Marshal` methods
(deterministic per value, so recorded as fields). -/
structure Value (V : Type) where
  data : V
  validate : Option String
  marshal : Except String Bytes

/-- Embedding of `orm.Object`: a primary key paired with its Value. -/
structure Object (V : Type) where
  key : Bytes
  value : Value V

/-- Embedding of the `orm.Index` interface as used by `Bucket`: `update`
mutates the store (returning the possibly partially-mutated store and an
optional error, as a Go method on a mutable store does) and `getAt`
resolves an index key to the list of primary keys of its MultiRef.  The
index implementation itself (index.go) is outside the sources; `Bucket`
only ever calls it through this interface. -/
structure Index (σ V : Type) where
  update : σ → Option (Object V) → Option (Object V) → σ × Option String
  getAt : σ → Bytes → σ × Except String (List Bytes)

/-- Embedding of `orm.Bucket`: name, key prefix (`name + ":"`), the
prototype's deserialization (`proto.Clone()` then `Unmarshal`, as one pure
function from bytes to a fresh Value), and the registered secondary
indexes.  Go's `map[string]Index` is an association list; lookups go
through `lookupIndex`. -/
structure Bucket (σ V : Type) where
  name : String
  pfx : Bytes
  unmarshal : Bytes → Except String (Value V)
  indexes : List (String × Index σ V)

variable {σ V M : Type}

/-- Name lookup in the bucket's index map. -/
def lookupIndex (idxs : List (String × Index σ V)) (name : String) :
    Option (Index σ V) :=
  (idxs.find? (fun p => p.1 == name)).map (fun p => p.2)

/-- Bucket-name check, embedding the regexp `^[a-z_]\x7b3,8\x7d$`. -/
def isBucketName (s : String) : Bool :=
  decide (3 ≤ s.length) && decide (s.length ≤ 8) &&
    s.data.all (fun c => (decide (97 ≤ c.toNat) && decide (c.toNat ≤ 122)) || c == '_')

/-- Bytes of a string (each character's code point). -/
def strBytes (s : String) : Bytes :=
  s.data.map Char.toNat

/-- Embedding of `NewBucket`: `none` models the panic on an illegal
name; the prefix is the name's bytes followed by the byte of colon. -/
def NewBucket (name : String) (unm : Bytes → Except String (Value V)) :
    Option (Bucket σ V) :=
  if isBucketName name then
    some { name := name, pfx := strBytes name ++ [58], unmarshal := unm, indexes := [] }
  else none

/-- Embedding of `Bucket.DBKey`: the full store key, prefix plus key. -/
def Bucket.DBKey (b : Bucket σ V) (key : Bytes) : Bytes :=
  b.pfx ++ key

/-- Embedding of `Bucket.Get`: read the raw record at `prefix+key`; a
`nil` read yields `(nil, nil)`; otherwise deserialize into a fresh clone
of the prototype, attach the query key via `SetKey`, and return it. -/
def Bucket.Get (b : Bucket σ V) (kv : KV σ) (db : σ) (key : Bytes) :
    σ × Except String (Option (Object V)) :=
  match kv.get db (b.DBKey key) with
  | (none, db) => (db, Except.ok none)
  | (some bz, db) =>
      match b.unmarshal bz with
      | Except.error e => (db, Except.error e)
      | Except.ok v => (db, Except.ok (some { key := key, value := v }))

/-- The `for _, idx := range b.indexes` loop body of `updateIndexes`:
run each index's `Update` in turn, stopping at (and returning) the first
error, with all store mutations made so far kept. -/
def runIndexes : List (String × Index σ V) → σ → Option (Object V) →
    Option (Object V) → σ × Option String
  | [], db, _, _ => (db, none)
  | (_, idx) :: rest, db, prev, model =>
      match idx.update db prev model with
      | (db, some e) => (db, some e)
      | (db, none) => runIndexes rest db prev model

/-- Embedding of `Bucket.updateIndexes`: when at least one index is
registered, look up the previous object once and run every index's
`Update`; with no indexes registered nothing is read or written. -/
def Bucket.updateIndexes (b : Bucket σ V) (kv : KV σ) (db : σ) (key : Bytes)
    (model : Option (Object V)) : σ × Option String :=
  if 0 < b.indexes.length then
    match b.Get kv db key with
    | (db, Except.error e) => (db, some e)
    | (db, Except.ok prev) => runIndexes b.indexes db prev model
  else (db, none)

/-- Embedding of `Bucket.Save`: validate, marshal, update the indexes,
then write the serialized bytes at `prefix+key`. -/
def Bucket.Save (b : Bucket σ V) (kv : KV σ) (db : σ) (model : Object V) :
    σ × Option String :=
  match model.value.validate with
  | some e => (db, some e)
  | none =>
      match model.value.marshal with
      | Except.error e => (db, some e)
      | Except.ok bz =>
          match b.updateIndexes kv db model.key (some model) with
          | (db, some e) => (db, some e)
          | (db, none) => (kv.set db (b.DBKey model.key) bz, none)

/-- Embedding of `Bucket.Delete`: update the indexes with an absent new
object, then delete the record at `prefix+key`. -/
def Bucket.Delete (b : Bucket σ V) (kv : KV σ) (db : σ) (key : Bytes) :
    σ × Option String :=
  match b.updateIndexes kv db key none with
  | (db, some e) => (db, some e)
  | (db, none) => (kv.del db (b.DBKey key), none)

/-- Embedding of `Bucket.WithIndex`: `none` models the panic on a
duplicate index name; otherwise the result is a bucket whose index map
holds every previous index plus the new one, built by `mkIndex` from the
composite name `bucketName + "_" + indexName` (`NewIndex` itself is
outside the sources).  The source copies the map so the receiver is
untouched; in this pure embedding the receiver is immutable anyway. -/
def Bucket.WithIndex (b : Bucket σ V) (name : String)
    (mkIndex : String → Index σ V) : Option (Bucket σ V) :=
  match lookupIndex b.indexes name with
  | some _ => none
  | none =>
      some { b with indexes := b.indexes ++ [(name, mkIndex (b.name ++ "_" ++ name))] }

/-- The loop of `readRefs`: fetch each referenced primary key with
`Bucket.Get`, stopping at the first error; an absent key contributes the
`nil` object that `Get` returns for it. -/
def Bucket.readRefsLoop (b : Bucket σ V) (kv : KV σ) :
    σ → List Bytes → σ × Except String (List (Option (Object V)))
  | db, [] => (db, Except.ok [])
  | db, key :: rest =>
      match b.Get kv db key with
      | (db, Except.error e) => (db, Except.error e)
      | (db, Except.ok obj) =>
          match b.readRefsLoop kv db rest with
          | (db, Except.error e) => (db, Except.error e)
          | (db, Except.ok objs) => (db, Except.ok (obj :: objs))

/-- Embedding of `Bucket.readRefs`: empty references yield an empty
result with no error; otherwise run the fetch loop. -/
def Bucket.readRefs (b : Bucket σ V) (kv : KV σ) (db : σ) (refs : List Bytes) :
    σ × Except String (List (Option (Object V))) :=
  if refs.isEmpty then (db, Except.ok [])
  else b.readRefsLoop kv db refs

/-- Embedding of `Bucket.GetIndexed`: resolve the named index (error on
an unknown name), obtain the matching primary keys, then read the
corresponding objects through `readRefs`. -/
def Bucket.GetIndexed (b : Bucket σ V) (kv : KV σ) (db : σ) (name : String)
    (key : Bytes) : σ × Except String (List (Option (Object V))) :=
  match lookupIndex b.indexes name with
  | none => (db, Except.error ("No such index: " ++ name))
  | some idx =>
      match idx.getAt db key with
      | (db, Except.error e) => (db, Except.error e)
      | (db, Except.ok refs) => b.readRefs kv db refs

/-- Metadata carried by a value, with its last-modified height field
(the field the last-modified decorator is meant to stamp). -/
structure Metadata where
  lastModified : Int

/-- Embedding of the `orm.ModelBucket` interface as used by the
last-modified decorator: every operation is an abstract state-passing
function. -/
structure ModelBucket (σ M : Type) where
  one : σ → Bytes → σ × Except String M
  byIndex : σ → String → Bytes → σ × Except String (List Bytes × List M)
  put : σ → Bytes → M → σ × Except String Bytes
  del : σ → Bytes → σ × Option String
  has : σ → Bytes → σ × Option String

/-- Embedding of `lastModifiedBucket`: the height captured at bind time,
the wrapped bucket, and the `metadator` type-assertion (`GetMetadata`) as
a function returning `none` when the model does not implement it. -/
structure LastModifiedBucket (σ M : Type) where
  blockHeight : Int
  bucket : ModelBucket σ M
  getMetadata : M → Option Metadata

/-- Embedding of `lastModifiedBucket.One`: forward to the wrapped bucket. -/
def LastModifiedBucket.One (b : LastModifiedBucket σ M) (db : σ) (key : Bytes) :
    σ × Except String M :=
  b.bucket.one db key

/-- Embedding of `lastModifiedBucket.ByIndex`: forward to the wrapped
bucket. -/
def LastModifiedBucket.ByIndex (b : LastModifiedBucket σ M) (db : σ)
    (indexName : String) (key : Bytes) :
    σ × Except String (List Bytes × List M) :=
  b.bucket.byIndex db indexName key

/-- Embedding of `lastModifiedBucket.Put`: the source inspects the
model's metadata when present, but the branch body only prints it (the
height assignment is a TODO in the source), so in both branches the model
is forwarded to the wrapped bucket unchanged. -/
def LastModifiedBucket.Put (b : LastModifiedBucket σ M) (db : σ) (key : Bytes)
    (m : M) : σ × Except String Bytes :=
  match b.getMetadata m with
  | some _meta => b.bucket.put db key m
  | none => b.bucket.put db key m

/-- Embedding of `lastModifiedBucket.Delete`: forward to the wrapped
bucket. -/
def LastModifiedBucket.Delete (b : LastModifiedBucket σ M) (db : σ)
    (key : Bytes) : σ × Option String :=
  b.bucket.del db key

/-- Embedding of `lastModifiedBucket.Has`: forward to the wrapped bucket. -/
def LastModifiedBucket.Has (b : LastModifiedBucket σ M) (db : σ) (key : Bytes) :
    σ × Option String :=
  b.bucket.has db key

/-- The execution context as consumed by the decorator: the ambient block
height when present (`weave.GetHeight` returns a value and an ok flag). -/
structure Ctx where
  height : Option Int

/-- Embedding of `unboundLastModifiedBucket`. -/
structure UnboundLastModifiedBucket (σ M : Type) where
  bucket : ModelBucket σ M
  getMetadata : M → Option Metadata

/-- Embedding of `WithLastModified`. -/
def WithLastModified (b : ModelBucket σ M) (gm : M → Option Metadata) :
    UnboundLastModifiedBucket σ M :=
  { bucket := b, getMetadata := gm }

/-- Embedding of `unboundLastModifiedBucket.Bind`: `none` models the
panic when the context carries no block height; otherwise the bound
bucket captures the height. -/
def UnboundLastModifiedBucket.Bind (u : UnboundLastModifiedBucket σ M)
    (ctx : Ctx) : Option (LastModifiedBucket σ M) :=
  match ctx.height with
  | none => none
  | some h =>
      some { blockHeight := h, bucket := u.bucket, getMetadata := u.getMetadata }

/-! Concrete fixtures used by the witnesses and counterexamples. -/

/-- A concrete test bucket named `bkt` over unit payloads; `unmarshal`
always succeeds, echoing the raw bytes into the value's re-marshal.  It
is polymorphic in the store state so both the plain and the read-logging
store instances can drive it. -/
def bw : Bucket σ Unit :=
  { name := "bkt"
    pfx := [98, 107, 116, 58]
    unmarshal := fun bz =>
      Except.ok { data := (), validate := none, marshal := Except.ok bz }
    indexes := [] }

/-- A test index whose `update` prepends an index entry at raw key
`[100]` and always succeeds. -/
def idxGood : Index Store Unit :=
  { update := fun s _ _ => ((([100], [1]) :: s), none)
    getAt := fun s _ => (s, Except.ok []) }

/-- A test index whose `update` always fails without touching the store. -/
def idxBad : Index Store Unit :=
  { update := fun s _ _ => (s, some "boom")
    getAt := fun s _ => (s, Except.ok []) }

/-- The test bucket with one succeeding and one failing index, in that
iteration order. -/
def bw2 : Bucket Store Unit :=
  { (bw : Bucket Store Unit) with indexes := [("good", idxGood), ("bad", idxBad)] }

/-- The succeeding test index lifted to the read-logging store state. -/
def idxGoodL : Index (Store × List Bytes) Unit :=
  { update := fun s _ _ => ((([100], [1]) :: s.1, s.2), none)
    getAt := fun s _ => (s, Except.ok []) }

/-- The test bucket with one index, over the read-logging store state. -/
def bw2L : Bucket (Store × List Bytes) Unit :=
  { (bw : Bucket (Store × List Bytes) Unit) with indexes := [("good", idxGoodL)] }

/-- A test index whose `getAt` always answers with the single primary key
`[1]` (a MultiRef entry), regardless of the store. -/
def idxDangling : Index Store Unit :=
  { update := fun s _ _ => (s, none)
    getAt := fun s _ => (s, Except.ok [[1]]) }

/-- The test bucket with the index `i` resolving to primary key `[1]`. -/
def bw3 : Bucket Store Unit :=
  { (bw : Bucket Store Unit) with indexes := [("i", idxDangling)] }

/-- The polymorphic test bucket fixed to the read-logging store state. -/
def bwL : Bucket (Store × List Bytes) Unit := bw

/-- A valid test object at key `[1]` that validates and marshals fine. -/
def okObj : Object Unit :=
  { key := [1], value := { data := (), validate := none, marshal := Except.ok [7] } }

/-- A test object whose value fails validation. -/
def badObj : Object Unit :=
  { key := [1], value := { data := (), validate := some "invalid", marshal := Except.ok [] } }

/-- A test object whose value validates but fails to marshal. -/
def badMarshalObj : Object Unit :=
  { key := [1], value := { data := (), validate := none, marshal := Except.error "nomarsh" } }

/-! Theorems for the claims. -/

/-- Helper: reading a cons cell whose key differs passes through. -/
theorem storeGet_cons_ne (a v : Bytes) (s : Store) (k : Bytes)
    (h : (a == k) = false) : storeGet ((a, v) :: s) k = storeGet s k := by
  simp [storeGet, List.find?, h]

/-- C4: with no record stored at `prefix+key` (the store read yields
`none`), `Bucket.Get` returns an absent result together with no error:
absence is a normal negative answer, never an error. -/
theorem get_absent (b : Bucket σ V) (kv : KV σ) (db s : σ) (key : Bytes)
    (h : kv.get db (b.DBKey key) = (none, s)) :
    b.Get kv db key = (s, Except.ok none) := by
  unfold Bucket.Get
  rw [h]

/-- Witness for C4 at a concrete empty store. -/
theorem get_absent_w : bw.Get listKV [] [1] = ([], Except.ok none) :=
  get_absent bw listKV [] [] [1] rfl

/-- C5: on a present key whose bytes deserialize, `Bucket.Get` returns
the object built from the fresh clone of the prototype with exactly the
query key attached. -/
theorem get_present (b : Bucket σ V) (kv : KV σ) (db s : σ) (key bz : Bytes)
    (v : Value V) (hg : kv.get db (b.DBKey key) = (some bz, s))
    (hu : b.unmarshal bz = Except.ok v) :
    b.Get kv db key = (s, Except.ok (some { key := key, value := v })) := by
  simp [Bucket.Get, hg, hu]

/-- Witness for C5 at a concrete one-record store. -/
theorem get_present_w :
    Bucket.Get bw listKV [([98, 107, 116, 58, 1], [7])] [1] =
      ([([98, 107, 116, 58, 1], [7])],
        Except.ok (some ⟨[1], ⟨(), none, Except.ok [7]⟩⟩)) :=
  get_present bw listKV _ _ [1] [7] _ rfl rfl

/-- C2: when the object's value fails its own `Validate`, `Bucket.Save`
returns the validation error with the store state unchanged — for every
store instance `kv`, so no store key is read or mutated. -/
theorem save_validate_error (b : Bucket σ V) (kv : KV σ) (db : σ)
    (model : Object V) (e : String) (h : model.value.validate = some e) :
    b.Save kv db model = (db, some e) := by
  unfold Bucket.Save
  rw [h]

/-- Witness for C2 at a concrete invalid object, on the read-logging
store: the log stays empty and the store untouched. -/
theorem save_validate_error_w :
    bwL.Save logKV ([], []) badObj = (([], []), some "invalid") :=
  save_validate_error bwL logKV ([], []) badObj "invalid" rfl

/-- C9: when validation passes but `Marshal` fails, `Bucket.Save` returns
the marshal error with the store state unchanged — for every store
instance `kv`, so no store key is read or mutated (serialization happens
before any index update or primary write). -/
theorem save_marshal_error (b : Bucket σ V) (kv : KV σ) (db : σ)
    (model : Object V) (e : String) (h1 : model.value.validate = none)
    (h2 : model.value.marshal = Except.error e) :
    b.Save kv db model = (db, some e) := by
  unfold Bucket.Save
  rw [h1, h2]

/-- Witness for C9 at a concrete unmarshalable object, on the
read-logging store and with an index registered: the log stays empty and
neither the primary record nor the index entry is touched. -/
theorem save_marshal_error_w :
    bw2L.Save logKV ([], []) badMarshalObj = (([], []), some "nomarsh") :=
  save_marshal_error bw2L logKV ([], []) badMarshalObj "nomarsh" rfl rfl

/-- C10: with no registered indexes, `Bucket.Delete` is exactly one
`del` of `prefix+key` with a `nil` error — for every store instance `kv`,
every store state and every key (present or absent): no read of the
previous value happens and deleting a non-existent key is not an error. -/
theorem delete_no_indexes (b : Bucket σ V) (kv : KV σ) (db : σ) (key : Bytes)
    (h : b.indexes = []) :
    b.Delete kv db key = (kv.del db (b.DBKey key), none) := by
  unfold Bucket.Delete Bucket.updateIndexes
  rw [h]
  simp

/-- Witness for C10 on the read-logging store at an absent key: the
delete succeeds and the read log stays empty. -/
theorem delete_no_indexes_w :
    bwL.Delete logKV ([], []) [9] = (logKV.del ([], []) (bwL.DBKey [9]), none) :=
  delete_no_indexes bwL logKV ([], []) [9] rfl

/-- Helper: if every registered index's `update` leaves the store's
content at key `k` unchanged, so does the whole index iteration, whether
it succeeds or stops at an error. -/
theorem runIndexes_preserve (idxs : List (String × Index Store V)) (db : Store)
    (prev model : Option (Object V)) (k : Bytes)
    (h : ∀ ni ∈ idxs, ∀ s p m, storeGet ((ni.2.update s p m).1) k = storeGet s k) :
    storeGet (runIndexes idxs db prev model).1 k = storeGet db k := by
  induction idxs generalizing db with
  | nil => rfl
  | cons hd tl ih =>
      obtain ⟨n, idx⟩ := hd
      have h1 : ∀ s p m, storeGet ((idx.update s p m).1) k = storeGet s k :=
        h (n, idx) (List.mem_cons_self _ _)
      rcases hu : idx.update db prev model with ⟨db2, err⟩
      have h2 : storeGet db2 k = storeGet db k := by
        have h3 := h1 db prev model
        rw [hu] at h3
        exact h3
      cases err with
      | some e =>
          have he : runIndexes ((n, idx) :: tl) db prev model = (db2, some e) := by
            simp [runIndexes, hu]
          rw [he]
          exact h2
      | none =>
          have he : runIndexes ((n, idx) :: tl) db prev model =
              runIndexes tl db2 prev model := by
            simp [runIndexes, hu]
          rw [he, ih db2 (fun ni hni => h ni (List.mem_cons_of_mem _ hni))]
          exact h2

/-- C1: when validation and serialization succeed, the previous-object
lookup succeeds, and the iteration over the registered indexes stops at a
failing `Update`, `Save` returns that error; the resulting store is
exactly the state the partial index iteration produced (index entries
updated earlier in the iteration are NOT rolled back), and — since every
registered index update leaves the primary record's key alone — the
record at `prefix+key` is exactly as before the call, never written. -/
theorem save_index_error (b : Bucket Store V) (db db2 : Store)
    (model : Object V) (prev : Option (Object V)) (bz : Bytes) (e : String)
    (hv : model.value.validate = none)
    (hm : model.value.marshal = Except.ok bz)
    (hp : b.Get listKV db model.key = (db, Except.ok prev))
    (hr : runIndexes b.indexes db prev (some model) = (db2, some e))
    (hpk : ∀ ni ∈ b.indexes, ∀ s p m,
      storeGet ((ni.2.update s p m).1) (b.DBKey model.key) =
        storeGet s (b.DBKey model.key)) :
    b.Save listKV db model = (db2, some e) ∧
    storeGet db2 (b.DBKey model.key) = storeGet db (b.DBKey model.key) := by
  have hlen : 0 < b.indexes.length := by
    rcases hidx : b.indexes with _ | ⟨hd, tl⟩
    · rw [hidx] at hr
      simp [runIndexes] at hr
    · simp [hidx]
  have hui : b.updateIndexes listKV db model.key (some model) = (db2, some e) := by
    unfold Bucket.updateIndexes
    rw [if_pos hlen, hp]
    exact hr
  constructor
  · unfold Bucket.Save
    rw [hv, hm, hui]
  · have hpres := runIndexes_preserve b.indexes db prev (some model)
      (b.DBKey model.key) hpk
    rw [hr] at hpres
    exact hpres

/-- Witness for C1: on the two-index bucket the first index writes its
entry, the second fails; `Save` surfaces the failure, keeps the first
index's entry, and never writes the primary record. -/
theorem save_index_error_w :
    bw2.Save listKV [] okObj = ([([100], [1])], some "boom") ∧
    storeGet [([100], [1])] (bw2.DBKey [1]) = storeGet [] (bw2.DBKey [1]) :=
  save_index_error bw2 [] [([100], [1])] okObj none [7] "boom" rfl rfl rfl rfl
    (by
      intro ni hni s p m
      have hni' : ni = ("good", idxGood) ∨ ni = ("bad", idxBad) := by
        simpa [bw2, bw] using hni
      rcases hni' with h | h
      · subst h
        exact storeGet_cons_ne [100] [1] s (bw2.DBKey [1]) (by decide)
      · subst h
        rfl)

/-- C6: `WithIndex` panics (modelled as `none`) exactly when the name is
already registered; otherwise it returns a bucket whose index map is the
original's plus the new index under the given name.  The original bucket
value is untouched: bucket values are immutable in this embedding, which
the source guarantees by copying the index map before extending it. -/
theorem withIndex_spec (b : Bucket σ V) (name : String)
    (mkIndex : String → Index σ V) :
    ((lookupIndex b.indexes name).isSome → b.WithIndex name mkIndex = none) ∧
    (lookupIndex b.indexes name = none →
      b.WithIndex name mkIndex =
        some { b with
          indexes := b.indexes ++ [(name, mkIndex (b.name ++ "_" ++ name))] }) := by
  constructor
  · intro h
    rcases hl : lookupIndex b.indexes name with _ | i
    · rw [hl] at h
      simp at h
    · unfold Bucket.WithIndex
      rw [hl]
  · intro h
    unfold Bucket.WithIndex
    rw [h]

/-- Witness for C6: registering the name `good` a second time panics,
while a fresh name extends the index map by exactly the new index. -/
theorem withIndex_spec_w :
    Bucket.WithIndex bw2 "good" (fun _ => idxGood) = none ∧
    Bucket.WithIndex bw2 "new" (fun _ => idxGood) =
      some { bw2 with indexes := bw2.indexes ++ [("new", idxGood)] } :=
  ⟨(withIndex_spec bw2 "good" (fun _ => idxGood)).1 rfl,
   (withIndex_spec bw2 "new" (fun _ => idxGood)).2 rfl⟩

/-- C3 counterexample: on the empty store the index `i` resolves to the
primary key `[1]`, which is absent from the store, yet `GetIndexed`
reports no error and silently includes an empty (`none`) entry for the
dangling reference instead of surfacing an internal error. -/
theorem getIndexed_dangling_cex :
    storeGet [] (bw3.DBKey [1]) = none ∧
    bw3.GetIndexed listKV [] "i" [5] = ([], Except.ok [none]) :=
  ⟨rfl, rfl⟩

/-- Helper: fetching references that are all absent yields a `none`
placeholder for each, with no error and the store untouched. -/
theorem readRefsLoop_absent (b : Bucket Store V) (db : Store) (refs : List Bytes)
    (h : ∀ r ∈ refs, storeGet db (b.DBKey r) = none) :
    b.readRefsLoop listKV db refs =
      (db, Except.ok (refs.map fun _ => (none : Option (Object V)))) := by
  induction refs with
  | nil => rfl
  | cons r rest ih =>
      have hr : storeGet db (b.DBKey r) = none := h r (List.mem_cons_self _ _)
      have hg : b.Get listKV db r = (db, Except.ok none) := by
        simp [Bucket.Get, listKV, hr]
      have hrest := ih (fun x hx => h x (List.mem_cons_of_mem _ hx))
      simp [Bucket.readRefsLoop, hg, hrest]

/-- C3 amended: when the named index resolves, its `getAt` answers a list
of references without touching the store, and every referenced primary
key is absent from the store, `GetIndexed` succeeds (no internal error)
with a `none` placeholder at the position of every dangling reference
(nothing is skipped, nothing is reported). -/
theorem getIndexed_dangling_amended (b : Bucket Store V) (db : Store)
    (name : String) (idx : Index Store V) (key : Bytes) (refs : List Bytes)
    (h1 : lookupIndex b.indexes name = some idx)
    (h2 : idx.getAt db key = (db, Except.ok refs))
    (h3 : ∀ r ∈ refs, storeGet db (b.DBKey r) = none) :
    b.GetIndexed listKV db name key =
      (db, Except.ok (refs.map fun _ => (none : Option (Object V)))) := by
  have hred : b.GetIndexed listKV db name key = b.readRefs listKV db refs := by
    simp [Bucket.GetIndexed, h1, h2]
  rw [hred]
  rcases refs with _ | ⟨r, rest⟩
  · simp [Bucket.readRefs]
  · have hloop := readRefsLoop_absent b db (r :: rest) h3
    simpa [Bucket.readRefs] using hloop

/-- Witness for C3's amended claim on a store holding one unrelated
record: the dangling reference `[1]` yields a `none` entry, no error. -/
theorem getIndexed_dangling_amended_w :
    bw3.GetIndexed listKV [([0], [0])] "i" [5] =
      ([([0], [0])], Except.ok [none]) :=
  getIndexed_dangling_amended bw3 [([0], [0])] "i" idxDangling [5] [[1]]
    rfl rfl
    (by
      intro r hr
      simp at hr
      subst hr
      rfl)

/-- A concrete model type carrying metadata, for the decorator tests. -/
structure PayModel where
  metadata : Metadata
  val : Nat

/-- A trivial inner model bucket over an association list of models:
`put` records the model under its key. -/
def innerMB : ModelBucket (List (Bytes × PayModel)) PayModel :=
  { one := fun s k =>
      match (s.find? (fun p => p.1 == k)).map (fun p => p.2) with
      | some m => (s, Except.ok m)
      | none => (s, Except.error "not found")
    byIndex := fun s _ _ => (s, Except.ok ([], []))
    put := fun s k m => ((k, m) :: s, Except.ok k)
    del := fun s _ => (s, none)
    has := fun s _ => (s, none) }

/-- The last-modified decorator bound at block height 5 over the test
inner bucket. -/
def lmb : LastModifiedBucket (List (Bytes × PayModel)) PayModel :=
  { blockHeight := 5, bucket := innerMB, getMetadata := fun m => some m.metadata }

/-- A test model whose metadata's last-modified field is 0. -/
def pm0 : PayModel := { metadata := { lastModified := 0 }, val := 7 }

/-- C7 (divergence evidence): with the decorator bound at height 5 and a
model carrying metadata with last-modified 0, `Put` forwards the model to
the wrapped bucket completely unchanged — the stored record still carries
last-modified 0, not the bound height 5 (the height assignment is an
unimplemented TODO in the source); `One` and `ByIndex` are pure
pass-through as claimed. -/
theorem lastModified_put_no_stamp :
    lmb.blockHeight = 5 ∧
    lmb.Put [] [1] pm0 = ([([1], pm0)], Except.ok [1]) ∧
    pm0.metadata.lastModified = 0 ∧
    lmb.One [([2], pm0)] [2] = ([([2], pm0)], Except.ok pm0) ∧
    lmb.ByIndex [] "n" [3] = ([], Except.ok ([], [])) :=
  ⟨rfl, rfl, rfl, rfl, rfl⟩

/-- C8: `Bind` panics (modelled as `none`) exactly when the context
carries no block height; with a height present it returns the bound
bucket carrying that height over the same wrapped bucket. -/
theorem bind_spec (u : UnboundLastModifiedBucket σ M) (ctx : Ctx) :
    (u.Bind ctx = none ↔ ctx.height = none) ∧
    (∀ h : Int, ctx.height = some h →
      u.Bind ctx =
        some { blockHeight := h, bucket := u.bucket,
               getMetadata := u.getMetadata }) := by
  rcases hh : ctx.height with _ | h0
  · constructor
    · simp [UnboundLastModifiedBucket.Bind, hh]
    · intro h hcon
      cases hcon
  · constructor
    · simp [UnboundLastModifiedBucket.Bind, hh]
    · intro h hs
      injection hs with hs
      subst hs
      simp [UnboundLastModifiedBucket.Bind, hh]

/-- The unbound decorator over the test inner bucket. -/
def u0 : UnboundLastModifiedBucket (List (Bytes × PayModel)) PayModel :=
  WithLastModified innerMB (fun m => some m.metadata)

/-- Witness for C8: binding with no height panics; binding at height 5
returns the bound bucket carrying 5. -/
theorem bind_spec_w :
    (u0.Bind { height := none } = none) ∧
    (u0.Bind { height := some 5 } =
      some { blockHeight := 5, bucket := u0.bucket,
             getMetadata := u0.getMetadata }) :=
  ⟨(bind_spec u0 { height := none }).1.mpr rfl,
   (bind_spec u0 { height := some 5 }).2 5 rfl⟩

end Weave
